import Mathlib

set_option maxRecDepth 8000

/-!
Verification of the hybrid research-paper search engine (search_engine.py):
the rule-based query parser, the filter evaluator, the hybrid scorer and the
public search API, embedded as executable functions.  Scores are rationals;
the TF–IDF cosine similarities computed by the vectorizer enter the search
pipeline as an explicit argument `sims`.
-/

/-- A paper record, restricted to the fields the engine reads.  In the source
the records are dicts and a missing field defaults to the empty string
(or the empty list for `keywords`). -/
structure Record where
  first_author : String
  co_authors : String
  title : String
  journal : String
  year : String
  keywords : List String
deriving DecidableEq

/-- The filter dictionary built by parse_query. -/
structure Filters where
  author : Option String
  journal : Option String
  year_after : Option Int
  year_before : Option Int
  exact_year : Option Int
  topics : List String
deriving DecidableEq

/-! ### Regex scanning primitives

The parser uses five fixed regular expressions.  Each is embedded as a
matcher that is tried at one text position, together with a scanner that
tries the matcher at every position from the left (re.search semantics).
All five patterns start with a word boundary followed by a word character,
so a position is eligible exactly when the preceding character is not a
word character. -/

/-- Python regex word character `\w` (ASCII range, as used by the queries). -/
def isWordChar (c : Char) : Bool := c.isAlphanum || c == '_'

/-- Word boundary before a pattern that starts with a word character: the
preceding character, if any, is not a word character. -/
def wordBoundary : Option Char → Bool
  | none => true
  | some c => !isWordChar c

/-- Word boundary after a pattern that ends with a word character. -/
def boundaryAfter : List Char → Bool
  | [] => true
  | c :: _ => !isWordChar c

/-- Try the matcher at every boundary position, leftmost match first. -/
def scanFrom {α : Type} (m : List Char → Option α) : Option Char → List Char → Option α
  | prev, [] => if wordBoundary prev then m [] else none
  | prev, c :: rest =>
    match (if wordBoundary prev then m (c :: rest) else none) with
    | some r => some r
    | none => scanFrom m (some c) rest

/-- re.search over the whole text. -/
def reSearch {α : Type} (m : List Char → Option α) (text : List Char) : Option α :=
  scanFrom m none text

def digitVal (c : Char) : ℕ := c.toNat - '0'.toNat

/-- `(19|20)\d{2}\b` — four digits starting 19 or 20, then a word boundary. -/
def matchYearDigits : List Char → Option ℕ
  | d1 :: d2 :: d3 :: d4 :: rest =>
    if ((d1 == '1' && d2 == '9') || (d1 == '2' && d2 == '0'))
        && d3.isDigit && d4.isDigit && boundaryAfter rest then
      some (1000 * digitVal d1 + 100 * digitVal d2 + 10 * digitVal d3 + digitVal d4)
    else none
  | _ => none

/-- `<kw>\s+(19|20)\d{2}\b` at the current position: the literal keyword, at
least one whitespace character, then a bounded 4-digit year.  Used for the
`after`/`before` year rules (the source converts the last whitespace-split
token of the match, which is exactly the 4-digit year). -/
def keywordYearM (kw : List Char) (l : List Char) : Option ℕ :=
  if kw.isPrefixOf l then
    let rest := l.drop kw.length
    let ws := rest.takeWhile Char.isWhitespace
    if ws.length == 0 then none else matchYearDigits (rest.drop ws.length)
  else none

def lowerAZ (c : Char) : Bool := 'a' ≤ c && c ≤ 'z'

/-- The character class `[a-z\s\.]` of the author pattern. -/
def authorClassChar (c : Char) : Bool := lowerAZ c || c.isWhitespace || c == '.'

/-- `by\s+(dr\.?|prof\.?)?\s*([a-z][a-z\s\.]+)` at the current position,
returning the whole match (group 0), which is what the source uses.  The
letters of the title tokens and the dot all lie in the `[a-z\s\.]` class, so
whichever alternative of the optional title group the engine picks, the match
is "by", the whitespace run, and the maximal run of `[a-z\s\.]` characters;
some alternative succeeds exactly when that run starts with a letter and has
length at least two. -/
def authorM (l : List Char) : Option (List Char) :=
  if ("by".data).isPrefixOf l then
    let rest := l.drop 2
    let ws := rest.takeWhile Char.isWhitespace
    if ws.length == 0 then none
    else
      let r := (rest.drop ws.length).takeWhile authorClassChar
      match r with
      | c :: _ :: _ => if lowerAZ c then some ("by".data ++ ws ++ r) else none
      | _ => none
  else none

/-- str.replace("by", ""): delete every occurrence, scanning left to right
without rescanning the output. -/
def removeBy : List Char → List Char
  | 'b' :: 'y' :: rest => removeBy rest
  | c :: rest => c :: removeBy rest
  | [] => []

def trimEndBy (p : Char → Bool) (l : List Char) : List Char := (l.reverse.dropWhile p).reverse

def trimBothBy (p : Char → Bool) (l : List Char) : List Char := trimEndBy p (l.dropWhile p)

/-- str.lower(), character-wise (kernel-reducible replacement for the
byte-position-based core implementation). -/
def strLower (s : String) : String := ⟨s.data.map Char.toLower⟩

/-- str.strip(): whitespace removed from both ends. -/
def strTrim (s : String) : String := ⟨trimBothBy Char.isWhitespace s.data⟩

/-- sep.join(l). -/
def joinSep (sep : String) : List String → String
  | [] => ""
  | [x] => x
  | x :: xs => x ++ sep ++ joinSep sep xs

/-- re.sub(r"\s+", " ", s): collapse each maximal whitespace run to one space. -/
def collapseWsAux : Bool → List Char → List Char
  | _, [] => []
  | inRun, c :: rest =>
    if c.isWhitespace then
      if inRun then collapseWsAux true rest else ' ' :: collapseWsAux true rest
    else c :: collapseWsAux false rest

def collapseWs (l : List Char) : List Char := collapseWsAux false l

/-- str.title(): a letter is uppercased when the preceding character is not a
letter and lowercased otherwise. -/
def titleCaseAux : Bool → List Char → List Char
  | _, [] => []
  | prevAlpha, c :: rest =>
    (if c.isAlpha then (if prevAlpha then c.toLower else c.toUpper) else c)
      :: titleCaseAux c.isAlpha rest

def titleCase (l : List Char) : List Char := titleCaseAux false l

/-- Group 0 of the author match → the stored author value:
`re.sub(r"\s+", " ", m.group(0).replace("by", "").strip()).strip(". ").title()`. -/
def authorValue (g0 : List Char) : String :=
  ⟨titleCase (trimBothBy (fun c => c == '.' || c == ' ')
      (collapseWs (trimBothBy Char.isWhitespace (removeBy g0))))⟩

/-- The character class `[a-z0-9&\-\.\s]` of the journal pattern. -/
def journalClassChar (c : Char) : Bool :=
  lowerAZ c || c.isDigit || c == '&' || c == '-' || c == '.' || c.isWhitespace

/-- The continuation `\s+([a-z0-9&\-\.\s]+)` shared by both alternatives of
the journal pattern, returning group 2.  When the greedy `\s+` leaves no
class character the engine backtracks one whitespace character into the
class, which needs a whitespace run of length at least two. -/
def journalTail (rest : List Char) : Option (List Char) :=
  let ws := rest.takeWhile Char.isWhitespace
  if ws.length == 0 then none
  else
    let cls := (rest.drop ws.length).takeWhile journalClassChar
    if cls.length != 0 then some cls
    else if 2 ≤ ws.length then some [(ws.getLast?).getD ' ']
    else none

/-- `(in|published in)\s+([a-z0-9&\-\.\s]+)` at the current position. -/
def journalM (l : List Char) : Option (List Char) :=
  if ("in".data).isPrefixOf l then journalTail (l.drop 2)
  else if ("published in".data).isPrefixOf l then journalTail (l.drop 12)
  else none

/-- One alternative of the journal truncation pattern
`\b(after|before|in\s+(19|20)\d{2})\b` matching at the current position. -/
def stopM (l : List Char) : Option Unit :=
  if ("after".data).isPrefixOf l && boundaryAfter (l.drop 5) then some ()
  else if ("before".data).isPrefixOf l && boundaryAfter (l.drop 6) then some ()
  else if (keywordYearM ("in".data) l).isSome then some ()
  else none

/-- `re.split(pat, s)[0]`: the part of the text before the first match of the
truncation pattern. -/
def truncAux : Option Char → List Char → List Char
  | _, [] => []
  | prev, c :: rest =>
    if wordBoundary prev && (stopM (c :: rest)).isSome then []
    else c :: truncAux (some c) rest

/-- Group 2 of the journal match → the stored journal value:
strip, truncate at the first `after`/`before`/`in YYYY` clause, strip. -/
def journalValue (g2 : List Char) : String :=
  ⟨trimBothBy Char.isWhitespace (truncAux none (trimBothBy Char.isWhitespace g2))⟩

/-- The fixed seed vocabulary of domain topics, in source order. -/
def topicSeed : List String :=
  ["ai", "artificial intelligence", "machine learning", "ml",
   "deep learning", "dl", "nlp", "natural language processing",
   "computer vision", "cv", "blockchain", "cybersecurity",
   "data mining", "cloud", "cloud computing", "iot",
   "healthcare", "bioinformatics", "security", "privacy",
   "recommendation", "graph", "optimization", "edge computing"]

/-- Contiguous-substring test: the needle is a prefix of some suffix. -/
def hasInfix : List Char → List Char → Bool
  | [], needle => needle.isEmpty
  | c :: rest, needle => needle.isPrefixOf (c :: rest) || hasInfix rest needle

/-- Python substring containment (`needle in hay`). -/
def containsSub (needle hay : String) : Bool := hasInfix hay.data needle.data

/-- `re.findall(r"\"([^\"]+)\"", query)`: non-overlapping quoted chunks with
non-empty content, scanning left to right; a quote whose content would be
empty is skipped and the next quote starts a new candidate. -/
def findQuotedAux : Option (List Char) → List Char → List String
  | _, [] => []
  | none, c :: rest => if c == '"' then findQuotedAux (some []) rest else findQuotedAux none rest
  | some acc, c :: rest =>
    if c == '"' then
      if acc.isEmpty then findQuotedAux (some []) rest
      else ⟨acc.reverse⟩ :: findQuotedAux none rest
    else findQuotedAux (some (c :: acc)) rest

def findQuoted (l : List Char) : List String := findQuotedAux none l

/-- list(dict.fromkeys(l)): de-duplicate keeping first occurrences in order. -/
def dedupKeepOrder : List String → List String := go []
where go (seen : List String) : List String → List String
  | [] => []
  | x :: rest => if seen.contains x then go seen rest else x :: go (x :: seen) rest

/-- parse_query: rule-based extraction of structured filters from the
lower-cased query. -/
def parse_query (query : String) : Filters :=
  let q := (strLower query).data
  let year_after := reSearch (keywordYearM "after".data) q
  let year_before := reSearch (keywordYearM "before".data) q
  let exact_year :=
    if year_after.isNone && year_before.isNone then reSearch matchYearDigits q else none
  let author := (reSearch authorM q).map authorValue
  let journal := (reSearch journalM q).map journalValue
  let topics := dedupKeepOrder
    ((topicSeed.filter fun kw => containsSub kw (strLower query)) ++ findQuoted query.data)
  { author := author, journal := journal,
    year_after := year_after.map fun n => (n : Int),
    year_before := year_before.map fun n => (n : Int),
    exact_year := exact_year.map fun n => (n : Int),
    topics := topics }

/-! ### Filter evaluation -/

def digitsVal : List Char → Option ℕ
  | [] => none
  | l =>
    if l.all Char.isDigit then some (l.foldl (fun n c => 10 * n + digitVal c) 0) else none

/-- int(str(x).strip()) on the year field: optional sign, then decimal
digits; anything else raises, which the caller turns into None. -/
def pyInt (s : String) : Option Int :=
  match (strTrim s).data with
  | '-' :: rest => (digitsVal rest).map fun n => -(n : Int)
  | '+' :: rest => (digitsVal rest).map fun n => (n : Int)
  | l => (digitsVal l).map fun n => (n : Int)

/-- The lowered title + " " + the space-joined lowered keywords, used by the
topic constraint and the topic bonus. -/
def recCombined (p : Record) : String :=
  strLower p.title ++ " " ++ joinSep " " (p.keywords.map strLower)

/-- _passes_filters: the year constraints are each checked only when both the
filter bound and the parsed record year are present; the topic constraint
requires some topic to occur as a substring of the combined text. -/
def passes_filters (p : Record) (f : Filters) : Bool :=
  let py := pyInt p.year
  let exactOk : Bool :=
    match f.exact_year, py with
    | some e, some y => y == e
    | _, _ => true
  let afterOk : Bool :=
    match f.year_after, py with
    | some a, some y => decide (a < y)
    | _, _ => true
  let beforeOk : Bool :=
    match f.year_before, py with
    | some b, some y => decide (y < b)
    | _, _ => true
  let topicsOk : Bool :=
    if f.topics.isEmpty then true
    else f.topics.any fun t => containsSub (strLower t) (recCombined p)
  exactOk && afterOk && beforeOk && topicsOk

/-! ### Fuzzy partial-ratio model

rapidfuzz's `fuzz.partial_ratio` is an external primitive; the spec treats it
as a black-box substring-aware similarity on the 0–100 scale and allows any
edit-distance-based algorithm with equivalent properties.  It is modelled
as the maximum normalized indel similarity (`200·LCS/(|a|+|b|)`, rapidfuzz's
`ratio`) of the shorter string against every window of the longer string of
the shorter string's length. -/

/-- One row update of the longest-common-subsequence table. -/
def lcsRowAux (x : Char) : List Char → List ℕ → ℕ → List ℕ
  | [], _, _ => []
  | _ :: _, [], _ => []
  | _ :: _, [_], _ => []
  | y :: ys, p0 :: p1 :: ps, left =>
    let v := if x == y then p0 + 1 else max left p1
    v :: lcsRowAux x ys (p1 :: ps) v

def lcsRow (x : Char) (ys : List Char) (prev : List ℕ) : List ℕ :=
  0 :: lcsRowAux x ys prev 0

/-- Length of a longest common subsequence, by dynamic programming. -/
def lcsLen (xs ys : List Char) : ℕ :=
  ((xs.foldl (fun row x => lcsRow x ys row) (List.replicate (ys.length + 1) 0)).getLast?).getD 0

/-- rapidfuzz `ratio` on 0–100: normalized indel similarity. -/
def indelSim (a b : List Char) : ℚ :=
  if a.length + b.length == 0 then 100
  else (200 * (lcsLen a b : ℚ)) / ((a.length : ℚ) + (b.length : ℚ))

def listWindows (n : ℕ) (l : List Char) : List (List Char) :=
  (List.range (l.length - n + 1)).map fun i => (l.drop i).take n

/-- Model of rapidfuzz fuzz.partial_ratio (0–100 scale). -/
def fuzzPartialSim (s1 s2 : String) : ℚ :=
  let a := s1.data
  let b := s2.data
  let s := if a.length ≤ b.length then a else b
  let l := if a.length ≤ b.length then b else a
  ((listWindows s.length l).map fun w => indelSim s w).foldl max 0

/-! ### Hybrid scoring and the search pipeline -/

/-- Python truthiness of an optional string (None and "" are falsy). -/
def optTruthy : Option String → Bool
  | none => false
  | some s => !s.data.isEmpty

/-- _hybrid_score, with the TF–IDF cosine similarity of the record supplied
as `tfidf_sim`: 0.6·tfidf + 0.2·fuzzy(author)/100 when the author filter is
truthy + 0.15·fuzzy(journal)/100 when the journal filter is truthy + a
topic bonus min(0.05, 0.02·hits) when some topic hits, clamped to [0,1]. -/
def hybrid_score (p : Record) (query : String) (f : Filters) (tfidf_sim : ℚ) : ℚ :=
  let s1 : ℚ := 6/10 * tfidf_sim
  let s2 : ℚ := s1 + (if optTruthy f.author then
      2/10 * (fuzzPartialSim (strLower (f.author.getD "")) (strLower p.first_author) / 100) else 0)
  let s3 : ℚ := s2 + (if optTruthy f.journal then
      15/100 * (fuzzPartialSim (strLower (f.journal.getD "")) (strLower p.journal) / 100) else 0)
  let bonus : ℚ :=
    if f.topics.isEmpty then 0
    else
      let hits := (f.topics.filter fun t => containsSub (strLower t) (recCombined p)).length
      if 0 < hits then min (5/100) (2/100 * (hits : ℚ)) else 0
  max 0 (min (s3 + bonus) 1)

/-- One retained candidate: its corpus index (implicit in the source through
`enumerate`, made explicit here), its hybrid score, and the record. -/
structure ScoredEntry where
  idx : ℕ
  score : ℚ
  paper : Record
deriving DecidableEq

/-- The comparison `scored.sort(key=lambda x: x[0], reverse=True)` sorts by:
an earlier entry has a score not smaller than a later one. -/
def rankGE (a b : ScoredEntry) : Prop := b.score ≤ a.score

instance : DecidableRel rankGE := fun a b => inferInstanceAs (Decidable (b.score ≤ a.score))

instance : IsTotal ScoredEntry rankGE := ⟨fun a b => le_total b.score a.score⟩

instance : IsTrans ScoredEntry rankGE := ⟨fun _ _ _ h1 h2 => le_trans h2 h1⟩

/-- One iteration of the scoring loop of search: skip the record when it
fails the filters, otherwise score it and keep it when the score is
strictly positive. -/
def scoreEntry (f : Filters) (query : String) (sims : ℕ → ℚ) (ip : ℕ × Record) :
    Option ScoredEntry :=
  if passes_filters ip.2 f then
    let h := hybrid_score ip.2 query f (sims ip.1)
    if 0 < h then some ⟨ip.1, h, ip.2⟩ else none
  else none

/-- The scoring loop of search over the enumerated corpus. -/
def scored_candidates (papers : List Record) (sims : ℕ → ℚ) (query : String) :
    List ScoredEntry :=
  papers.enum.filterMap (scoreEntry (parse_query query) query sims)

/-- Python's list.sort is stable; a stable descending sort by score is
insertion sort with `rankGE` (an element is inserted after every element
whose score is at least its own). -/
def sortDesc (l : List ScoredEntry) : List ScoredEntry := List.insertionSort rankGE l

structure SearchOutput where
  query : String
  filters : Filters
  count : ℕ
  results : List ScoredEntry
deriving DecidableEq

/-- search(query, top_k).  The source attaches each score to a copy of its
record dict; here every result keeps (corpus index, score, record). -/
def search (papers : List Record) (sims : ℕ → ℚ) (query : String) (top_k : ℕ) :
    SearchOutput :=
  let f := parse_query query
  let top := (sortDesc (scored_candidates papers sims query)).take top_k
  { query := query, filters := f, count := top.length, results := top }

/-! ### Lexical index model

The vectorizer (sklearn TfidfVectorizer) is an external library.  It is
modelled structurally: the composite document strings are built exactly as in
`__init__`; tokenization is the analyzer's lowercased word tokens of length
at least two with unigrams and bigrams; the stop-word set and the numeric idf
curve are abstracted into parameters (their values are irrelevant to the
determinism property verified about the index), and the cosine normalization
(a square root) is omitted from the similarity, which the determinism
property is likewise insensitive to. -/

/-- The searchable composite text per record, from `__init__`: the stripped,
non-empty parts joined by " | ". -/
def buildDocs (papers : List Record) : List String :=
  papers.map fun p =>
    let parts := [p.title, p.journal, p.first_author, p.co_authors,
                  joinSep " " p.keywords]
    joinSep " | "
      ((parts.filter fun s => !s.data.isEmpty && !(strTrim s).data.isEmpty).map strTrim)

/-- Abstracted analyzer parameters: the stop-word predicate and the idf curve
(number of documents, document frequency ↦ weight). -/
structure IdfParams where
  stop : String → Bool
  idf : ℕ → ℕ → ℚ

/-- Maximal word-character runs of length at least two (token pattern of the
vectorizer), after lowercasing. -/
def tokensAux : Option (List Char) → List Char → List (List Char)
  | none, [] => []
  | some acc, [] => if 2 ≤ acc.length then [acc.reverse] else []
  | none, c :: rest =>
    if isWordChar c then tokensAux (some [c]) rest else tokensAux none rest
  | some acc, c :: rest =>
    if isWordChar c then tokensAux (some (c :: acc)) rest
    else if 2 ≤ acc.length then acc.reverse :: tokensAux none rest
    else tokensAux none rest

def tokenizeDoc (s : String) : List String :=
  (tokensAux none (strLower s).data).map fun l => ⟨l⟩

/-- The analyzed terms of one document: stop-filtered tokens plus bigrams. -/
def docTerms (P : IdfParams) (doc : String) : List String :=
  let toks := (tokenizeDoc doc).filter fun t => !P.stop t
  toks ++ (toks.zip toks.tail).map fun ab => ab.1 ++ " " ++ ab.2

def countOcc (t : String) (l : List String) : ℕ := (l.filter fun x => x == t).length

def docFreq (t : String) (docs : List (List String)) : ℕ :=
  (docs.filter fun d => d.contains t).length

def strLE (a b : String) : Prop := a ≤ b

instance : DecidableRel strLE := fun a b => inferInstanceAs (Decidable (a ≤ b))

instance : IsTotal String strLE := ⟨fun a b => le_total a b⟩

instance : IsTrans String strLE := ⟨fun _ _ _ h1 h2 => le_trans h1 h2⟩

/-- The fitted vocabulary: the distinct terms in alphabetical order. -/
def sortedVocab (ts : List String) : List String :=
  List.insertionSort strLE (dedupKeepOrder ts)

/-- The fitted index: vocabulary, per-term idf weights, and one weight row
per document (term count times idf). -/
structure LexIndex where
  vocab : List String
  idfs : List ℚ
  rows : List (List ℚ)
deriving DecidableEq

/-- fit_transform over the corpus documents. -/
def buildIndex (P : IdfParams) (papers : List Record) : LexIndex :=
  let docs := (buildDocs papers).map (docTerms P)
  let vocab := sortedVocab docs.flatten
  let n := docs.length
  let idfs := vocab.map fun t => P.idf n (docFreq t docs)
  { vocab := vocab, idfs := idfs,
    rows := docs.map fun d => (vocab.zip idfs).map fun ti => (countOcc ti.1 d : ℚ) * ti.2 }

/-- Rebuilding the index recomputes everything from the corpus; the previous
index state is not consulted. -/
def rebuildIndex (P : IdfParams) (_old : LexIndex) (papers : List Record) : LexIndex :=
  buildIndex P papers

def dotQ : List ℚ → List ℚ → ℚ
  | a :: as, b :: bs => a * b + dotQ as bs
  | _, _ => 0

/-- Query-to-record similarity against a fitted index: the dot product of the
query's weight vector over the fixed vocabulary with the record's row. -/
def indexSim (P : IdfParams) (idx : LexIndex) (q : String) (r : ℕ) : ℚ :=
  let d := docTerms P q
  dotQ ((idx.vocab.zip idx.idfs).map fun ti => (countOcc ti.1 d : ℚ) * ti.2)
    (idx.rows.getD r [])

/-! ### Helper lemmas -/

lemma scanFrom_some {α : Type} (m : List Char → Option α) :
    ∀ (l : List Char) (prev : Option Char) (r : α),
      scanFrom m prev l = some r → ∃ t, m t = some r := by
  intro l
  induction l with
  | nil =>
    intro prev r h
    unfold scanFrom at h
    split at h
    · exact ⟨[], h⟩
    · cases h
  | cons c rest ih =>
    intro prev r h
    unfold scanFrom at h
    cases h1 : (if wordBoundary prev then m (c :: rest) else none) with
    | some v =>
      rw [h1] at h
      cases h
      split at h1
      · exact ⟨c :: rest, h1⟩
      · cases h1
    | none =>
      rw [h1] at h
      exact ih (some c) r h

lemma digitVal_le_nine {c : Char} (h : c.isDigit = true) : digitVal c ≤ 9 := by
  simp only [Char.isDigit, Bool.and_eq_true, decide_eq_true_eq] at h
  obtain ⟨h1, h2⟩ := h
  have hle : c.toNat ≤ 57 := UInt32.toNat_le_of_le (by decide) h2
  have h0 : Char.toNat '0' = 48 := rfl
  unfold digitVal
  omega

lemma matchYearDigits_bounds {l : List Char} {n : ℕ} (h : matchYearDigits l = some n) :
    1900 ≤ n ∧ n ≤ 2099 := by
  rcases l with _ | ⟨d1, _ | ⟨d2, _ | ⟨d3, _ | ⟨d4, rest⟩⟩⟩⟩
  · cases h
  · cases h
  · cases h
  · cases h
  · by_cases hc : (((d1 == '1' && d2 == '9') || (d1 == '2' && d2 == '0'))
        && d3.isDigit && d4.isDigit && boundaryAfter rest) = true
    · rw [matchYearDigits, if_pos hc] at h
      cases h
      simp only [Bool.and_eq_true, Bool.or_eq_true, beq_iff_eq] at hc
      obtain ⟨⟨⟨h12, h3⟩, h4⟩, _⟩ := hc
      have b3 := digitVal_le_nine h3
      have b4 := digitVal_le_nine h4
      rcases h12 with ⟨rfl, rfl⟩ | ⟨rfl, rfl⟩
      · rw [show digitVal '1' = 1 from rfl, show digitVal '9' = 9 from rfl]
        omega
      · rw [show digitVal '2' = 2 from rfl, show digitVal '0' = 0 from rfl]
        omega
    · rw [matchYearDigits, if_neg hc] at h
      cases h

lemma keywordYearM_some {kw l : List Char} {n : ℕ} (h : keywordYearM kw l = some n) :
    1900 ≤ n ∧ n ≤ 2099 := by
  simp only [keywordYearM] at h
  split at h
  · split at h
    · cases h
    · exact matchYearDigits_bounds h
  · cases h

lemma scoreEntry_some {f : Filters} {query : String} {sims : ℕ → ℚ}
    {ip : ℕ × Record} {e : ScoredEntry} (h : scoreEntry f query sims ip = some e) :
    e.idx = ip.1 ∧ e.paper = ip.2 ∧ passes_filters ip.2 f = true
      ∧ 0 < e.score ∧ e.score = hybrid_score ip.2 query f (sims ip.1) := by
  simp only [scoreEntry] at h
  split at h
  · split at h
    · rename_i hp hpos
      cases h
      exact ⟨rfl, rfl, hp, hpos, rfl⟩
    · cases h
  · cases h

lemma scoreEntry_eq_none {f : Filters} {query : String} {sims : ℕ → ℚ}
    {ip : ℕ × Record} :
    scoreEntry f query sims ip = none
      ↔ ¬(passes_filters ip.2 f = true
          ∧ 0 < hybrid_score ip.2 query f (sims ip.1)) := by
  simp only [scoreEntry]
  split
  · split
    · rename_i hp hpos
      simp [hp, hpos]
    · rename_i hp hpos
      simp [hp, hpos]
  · rename_i hp
    simp [hp]

lemma mem_scored_candidates {papers : List Record} {sims : ℕ → ℚ} {query : String}
    {e : ScoredEntry} (h : e ∈ scored_candidates papers sims query) :
    passes_filters e.paper (parse_query query) = true
      ∧ 0 < e.score
      ∧ e.score = hybrid_score e.paper query (parse_query query) (sims e.idx) := by
  unfold scored_candidates at h
  rw [List.mem_filterMap] at h
  obtain ⟨ip, _, hip⟩ := h
  obtain ⟨h1, h2, h3, h4, h5⟩ := scoreEntry_some hip
  rw [h1, h2]
  exact ⟨h3, h4, h5⟩

lemma passes_year_after {p : Record} {f : Filters} {a y : Int}
    (hf : f.year_after = some a) (hp : pyInt p.year = some y)
    (h : passes_filters p f = true) : a < y := by
  simp only [passes_filters, hf, hp, Bool.and_eq_true] at h
  have := h.1.1.2
  simpa using this

lemma le_fst_of_mem_enumFrom {α : Type} {b : ℕ × α} :
    ∀ (l : List α) (n : ℕ), b ∈ List.enumFrom n l → n ≤ b.1 := by
  intro l
  induction l with
  | nil => intro n h; cases h
  | cons z zs ih =>
    intro n h
    rcases h with _ | h'
    · exact le_refl _
    · exact le_trans (by omega) (ih (n + 1) (by assumption))

lemma enumFrom_pairwise {α : Type} (n : ℕ) (l : List α) :
    (List.enumFrom n l).Pairwise fun a b => a.1 < b.1 := by
  induction l generalizing n with
  | nil => exact List.Pairwise.nil
  | cons x xs ih =>
    refine List.Pairwise.cons ?_ (ih (n + 1))
    intro b hb
    have := le_fst_of_mem_enumFrom xs (n + 1) hb
    omega

lemma scored_pairwise_idx (papers : List Record) (sims : ℕ → ℚ) (query : String) :
    (scored_candidates papers sims query).Pairwise fun a b => a.idx < b.idx := by
  unfold scored_candidates
  refine List.Pairwise.filterMap _ ?_ (enumFrom_pairwise 0 papers)
  intro ip ip' hlt b hb b' hb'
  have h1 := (scoreEntry_some hb).1
  have h2 := (scoreEntry_some hb').1
  rw [h1, h2]
  exact hlt

/-- Descending score order with ties broken by the original corpus index. -/
def rankKey (a b : ScoredEntry) : Prop :=
  b.score < a.score ∨ (a.score = b.score ∧ a.idx < b.idx)

lemma orderedInsert_rankKey (x : ScoredEntry) (t : List ScoredEntry) :
    t.Sorted rankGE → t.Pairwise rankKey → (∀ y ∈ t, x.idx < y.idx) →
    (List.orderedInsert rankGE x t).Pairwise rankKey := by
  induction t with
  | nil =>
    intro _ _ _
    simp [List.orderedInsert, rankKey]
  | cons y ys ih =>
    intro hs hp hidx
    unfold List.orderedInsert
    by_cases hr : rankGE x y
    · rw [if_pos hr]
      refine List.Pairwise.cons ?_ hp
      intro z hz
      have hzx : z.score ≤ x.score := by
        rcases List.mem_cons.mp hz with rfl | hz'
        · exact hr
        · exact le_trans (List.rel_of_sorted_cons hs z hz') hr
      rcases lt_or_eq_of_le hzx with hlt | heq
      · exact Or.inl hlt
      · exact Or.inr ⟨heq.symm, hidx z hz⟩
    · rw [if_neg hr]
      refine List.Pairwise.cons ?_
        (ih hs.of_cons hp.of_cons fun y' hy' => hidx y' (List.mem_cons_of_mem _ hy'))
      intro z hz
      rcases (List.mem_orderedInsert rankGE).mp hz with rfl | hz'
      · exact Or.inl (lt_of_not_le hr)
      · exact List.rel_of_pairwise_cons hp hz'

/-- A stable descending sort of a list whose indices strictly increase is
sorted by descending score with equal scores in index order. -/
lemma sortDesc_rankKey {l : List ScoredEntry}
    (h : l.Pairwise fun a b => a.idx < b.idx) : (sortDesc l).Pairwise rankKey := by
  induction l with
  | nil => exact List.Pairwise.nil
  | cons x xs ih =>
    show (List.orderedInsert rankGE x (List.insertionSort rankGE xs)).Pairwise rankKey
    refine orderedInsert_rankKey x _ (List.sorted_insertionSort rankGE xs) (ih h.of_cons) ?_
    intro y hy
    exact List.rel_of_pairwise_cons h ((List.mem_insertionSort rankGE).mp hy)

/-! ### Concrete inputs

The three-record example corpus of the specification, plus small single-record
corpora and filter values used to instantiate the theorems. -/

def recIeee : Record := ⟨"Alice Rao", "", "", "IEEE Access", "2019", ["iot"]⟩

def recSpringer : Record := ⟨"Bob Shah", "", "", "Springer", "2022", ["blockchain"]⟩

def recNature : Record := ⟨"Alice Rao", "", "", "Nature", "2021", ["ai"]⟩

def exampleCorpus : List Record := [recIeee, recSpringer, recNature]

def rec2000 : Record := ⟨"", "", "solar cells", "", "2000", []⟩

def rec2005 : Record := ⟨"", "", "solar power", "", "2005", []⟩

def rec2020 : Record := ⟨"", "", "wind power", "", "2020", []⟩

def recNoYear : Record := ⟨"", "", "", "", "", []⟩

def recZ : Record := ⟨"zzzz", "", "", "", "", []⟩

def fAuthorOnly : Filters := ⟨some "Alice Rao", none, none, none, none, []⟩

def fExactYear : Filters := ⟨none, none, none, none, some 2020, []⟩

def fEmpty : Filters := ⟨none, none, none, none, none, []⟩

/-! ### Claims -/

unseal Rat.add Rat.mul Rat.inv Rat.sub

/-- C9: rebuilding the lexical index over the same unchanged corpus is
deterministic: the rebuilt index (vocabulary, idf weights and weight rows)
does not depend on the previous index state, rebuilding twice yields the
identical index, and every query-to-record similarity score agrees across
the two builds. -/
theorem C9_rebuild_deterministic (P : IdfParams) (papers : List Record)
    (i₁ i₂ : LexIndex) (q : String) (r : ℕ) :
    rebuildIndex P i₁ papers = rebuildIndex P i₂ papers
    ∧ rebuildIndex P (rebuildIndex P i₁ papers) papers = rebuildIndex P i₁ papers
    ∧ indexSim P (rebuildIndex P i₁ papers) q r
        = indexSim P (rebuildIndex P i₂ papers) q r :=
  ⟨rfl, rfl, rfl⟩

/-- C2 counterexample: the filter pass never consults the fuzzy author (or
journal) similarity.  A record whose author is fuzz-similar to the author
filter at score 0 (far below 70) still passes the filters; and on the
three-record example corpus the query "papers by alice rao after 2019"
returns the records at corpus indices 2 and 1 (records 3 and 2), not only
record 3, whatever the lexical similarities (instantiated at 0 here). -/
theorem C2_counterexample :
    fuzzPartialSim (strLower "Alice Rao") (strLower recZ.first_author) < 70
    ∧ passes_filters recZ fAuthorOnly = true
    ∧ ((search exampleCorpus (fun _ => 0) "papers by alice rao after 2019" 20).results.map
        fun e => e.idx) = [2, 1] := by
  decide

/-- C2 amended: passes_filters is independent of the author and journal
fields of the Filter Set (fuzzy author/journal similarity affects only the
hybrid score, never admission), and on the example corpus the query
"papers by alice rao after 2019" excludes record 1 by the year bound but
returns both remaining records, record 3 (index 2) ranked first. -/
theorem C2_amended_no_author_journal_filtering :
    (∀ (p : Record) (f : Filters),
        passes_filters p f
          = passes_filters p { f with author := none, journal := none })
    ∧ ((search exampleCorpus (fun _ => 0) "papers by alice rao after 2019" 20).results.map
        fun e => e.idx) = [2, 1] :=
  ⟨fun _ _ => rfl, by decide⟩

/-- C3 counterexample: a record whose year field is the empty string (which
does not parse as an integer) passes the filters even when an exact-year
constraint is present — the source skips every year check when the record
year is unparsable, rather than failing the record. -/
theorem C3_counterexample :
    pyInt recNoYear.year = none
    ∧ fExactYear.exact_year = some 2020
    ∧ passes_filters recNoYear fExactYear = true := by
  decide

/-- C3 amended: a record whose year does not parse as an integer passes the
filters whenever no topic filter is present, regardless of any exact-year or
bounded-year constraints in the Filter Set. -/
theorem C3_amended_unparsable_year_passes (p : Record) (f : Filters)
    (hy : pyInt p.year = none) (ht : f.topics = []) :
    passes_filters p f = true := by
  obtain ⟨a, j, ya, yb, ey, ts⟩ := f
  replace ht : ts = [] := ht
  subst ht
  cases ya <;> cases yb <;> cases ey <;> simp [passes_filters, hy]

/-- C3 witness: the amended statement at the empty-year record and an
exact-year Filter Set. -/
theorem C3_amended_witness : passes_filters recNoYear fExactYear = true :=
  C3_amended_unparsable_year_passes recNoYear fExactYear (by decide) rfl

/-- C8 counterexample: the author phrase is not truncated at the recognized
keyword `in` — for "papers by alice rao in nature" the author filter is
"Alice Rao In Nature", keeping the keyword and what follows it; and the
title token "dr." is not stripped — for "by dr. mehta" the author filter is
"Dr. Mehta", not "Mehta". -/
theorem C8_counterexample :
    (parse_query "papers by alice rao in nature").author = some "Alice Rao In Nature"
    ∧ some "Alice Rao In Nature" ≠ some "Alice Rao"
    ∧ (parse_query "by dr. mehta").author = some "Dr. Mehta"
    ∧ some "Dr. Mehta" ≠ some "Mehta" := by
  decide

/-- C8 amended: the author value is the whole matched phrase after `by`:
the maximal run of lowercase letters, whitespace and periods (with every
literal letter pair "by" deleted, whitespace normalized, surrounding dots
and spaces stripped, then title-cased).  Recognized keywords such as `in`
or `after` and title tokens such as "dr." are retained inside the value;
the phrase ends only at a character outside the class — such as a digit or
a comma — or at the end of the query. -/
theorem C8_amended_author_full_phrase :
    (parse_query "papers by alice rao in nature").author = some "Alice Rao In Nature"
    ∧ (parse_query "papers by alice rao after 2019").author = some "Alice Rao After"
    ∧ (parse_query "by dr. mehta").author = some "Dr. Mehta"
    ∧ (parse_query "papers by alice rao, 2019").author = some "Alice Rao" := by
  decide

/-- C1 counterexample: a one-record corpus (year 2000) with the query
"after 2015" yields an empty result sequence although the corpus is
non-empty — no record passes the year filter and no fallback to the
unfiltered corpus exists in the source. -/
theorem C1_counterexample :
    ([rec2000] : List Record) ≠ []
    ∧ (search [rec2000] (fun _ => 1) "after 2015" 5).results = [] := by
  decide

/-- C4 counterexample: the query "after 1999 after 2015" contains the phrase
"after 2015", but the parser keeps only the first `after YYYY` occurrence
(1999), so the record with year 2005 — parsable and not greater than
2015 — is returned. -/
theorem C4_counterexample :
    hasInfix "after 1999 after 2015".data "after 2015".data = true
    ∧ ((search [rec2005] (fun _ => 1) "after 1999 after 2015" 5).results.map
        fun e => e.idx) = [0]
    ∧ pyInt rec2005.year = some 2005
    ∧ ¬((2015 : Int) < 2005) := by
  decide

/-- C5: a range keyword with a year beats a bare 4-digit token: whenever the
lowered query matches `after YYYY` (resp. `before YYYY`), the corresponding
bound is set to the first matched year and exact_year stays absent; and
exact_year is set (to the first bare 4-digit token, necessarily in
1900–2099) only when neither range pattern matches. -/
theorem C5_range_beats_bare_year (query : String) :
    (∀ y : ℕ, reSearch (keywordYearM "after".data) (strLower query).data = some y →
        (parse_query query).year_after = some (y : Int)
          ∧ (parse_query query).exact_year = none)
    ∧ (∀ y : ℕ, reSearch (keywordYearM "before".data) (strLower query).data = some y →
        (parse_query query).year_before = some (y : Int)
          ∧ (parse_query query).exact_year = none)
    ∧ (∀ y : Int, (parse_query query).exact_year = some y →
        reSearch (keywordYearM "after".data) (strLower query).data = none
          ∧ reSearch (keywordYearM "before".data) (strLower query).data = none
          ∧ (∃ n : ℕ, reSearch matchYearDigits (strLower query).data = some n
              ∧ y = (n : Int) ∧ 1900 ≤ n ∧ n ≤ 2099)) := by
  refine ⟨?_, ?_, ?_⟩
  · intro y hy
    constructor <;> simp [parse_query, hy]
  · intro y hy
    constructor <;> simp [parse_query, hy]
  · intro y hy
    cases hA : reSearch (keywordYearM "after".data) (strLower query).data with
    | some a => simp [parse_query, hA] at hy
    | none =>
      cases hB : reSearch (keywordYearM "before".data) (strLower query).data with
      | some b => simp [parse_query, hA, hB] at hy
      | none =>
        cases hN : reSearch matchYearDigits (strLower query).data with
        | none => simp [parse_query, hA, hB, hN] at hy
        | some n =>
          obtain ⟨t, ht⟩ := scanFrom_some matchYearDigits (strLower query).data none n hN
          obtain ⟨hb1, hb2⟩ := matchYearDigits_bounds ht
          simp [parse_query, hA, hB, hN] at hy
          exact ⟨rfl, rfl, n, rfl, by omega, hb1, hb2⟩

/-- C5 witness: the range rule applied to the query "papers after 2015". -/
theorem C5_witness :
    (parse_query "papers after 2015").year_after = some ((2015 : ℕ) : Int)
      ∧ (parse_query "papers after 2015").exact_year = none :=
  (C5_range_beats_bare_year "papers after 2015").1 2015 (by decide)

/-- C6: for every record, query, Filter Set and lexical similarity in [0,1],
the hybrid score is the clamp to [0,1] of 0.6·lexical + 0.2·fuzzy(author)
when the author filter is present (0 otherwise) + 0.15·fuzzy(journal) when
the journal filter is present (0 otherwise) + a topic-hit bonus between 0
and 0.05; in particular the score lies in [0,1]. -/
theorem C6_hybrid_formula (p : Record) (query : String) (f : Filters) (s : ℚ)
    (h0 : 0 ≤ s) (h1 : s ≤ 1) :
    ∃ bonus : ℚ, 0 ≤ bonus ∧ bonus ≤ 5/100 ∧
      hybrid_score p query f s
        = max 0 (min (6/10 * s
            + (if optTruthy f.author then
                2/10 * (fuzzPartialSim (strLower (f.author.getD ""))
                    (strLower p.first_author) / 100)
              else 0)
            + (if optTruthy f.journal then
                15/100 * (fuzzPartialSim (strLower (f.journal.getD ""))
                    (strLower p.journal) / 100)
              else 0)
            + bonus) 1)
      ∧ 0 ≤ hybrid_score p query f s ∧ hybrid_score p query f s ≤ 1 := by
  refine ⟨(if f.topics.isEmpty then 0
      else
        let hits := (f.topics.filter fun t => containsSub (strLower t) (recCombined p)).length
        if 0 < hits then min (5/100) (2/100 * (hits : ℚ)) else 0),
    ?_, ?_, rfl, ?_, ?_⟩
  · dsimp only
    split_ifs
    · exact le_refl 0
    · exact le_min (by norm_num) (by positivity)
    · exact le_refl 0
  · dsimp only
    split_ifs
    · norm_num
    · exact min_le_left _ _
    · norm_num
  · exact le_max_left 0 _
  · exact max_le (by norm_num) (min_le_right _ 1)

/-- C6 witness: the weighted-components formula at a concrete record, an
author-only Filter Set and lexical similarity 1/2. -/
theorem C6_witness :
    ∃ bonus : ℚ, 0 ≤ bonus ∧ bonus ≤ 5/100 ∧
      hybrid_score recZ "q" fAuthorOnly (1/2)
        = max 0 (min (6/10 * (1/2)
            + (if optTruthy fAuthorOnly.author then
                2/10 * (fuzzPartialSim (strLower (fAuthorOnly.author.getD ""))
                    (strLower recZ.first_author) / 100)
              else 0)
            + (if optTruthy fAuthorOnly.journal then
                15/100 * (fuzzPartialSim (strLower (fAuthorOnly.journal.getD ""))
                    (strLower recZ.journal) / 100)
              else 0)
            + bonus) 1)
      ∧ 0 ≤ hybrid_score recZ "q" fAuthorOnly (1/2)
      ∧ hybrid_score recZ "q" fAuthorOnly (1/2) ≤ 1 :=
  C6_hybrid_formula recZ "q" fAuthorOnly (1/2) (by norm_num) (by norm_num)

/-- C10: under an empty Filter Set (no author, no journal, no topics) the
hybrid score is exactly 0.6 times the lexical similarity, hence at most
0.6, for every lexical similarity in [0,1]: ranking is purely lexical. -/
theorem C10_empty_filters_pure_lexical (p : Record) (query : String) (f : Filters)
    (ha : f.author = none) (hj : f.journal = none) (ht : f.topics = [])
    (s : ℚ) (h0 : 0 ≤ s) (h1 : s ≤ 1) :
    hybrid_score p query f s = 6/10 * s ∧ hybrid_score p query f s ≤ 6/10 := by
  have hb : hybrid_score p query f s = max 0 (min (6/10 * s) 1) := by
    simp [hybrid_score, ha, hj, ht, optTruthy]
  have hle : 6/10 * s ≤ 1 := by nlinarith
  have hge : (0:ℚ) ≤ 6/10 * s := by nlinarith
  rw [hb, min_eq_left hle, max_eq_right hge]
  exact ⟨rfl, by nlinarith⟩

/-- C10 witness: the pure-lexical score at the empty Filter Set and lexical
similarity 1/2. -/
theorem C10_witness :
    hybrid_score recNoYear "q" fEmpty (1/2) = 6/10 * (1/2)
      ∧ hybrid_score recNoYear "q" fEmpty (1/2) ≤ 6/10 :=
  C10_empty_filters_pure_lexical recNoYear "q" fEmpty rfl rfl rfl (1/2)
    (by norm_num) (by norm_num)

/-- C4 amended: the year bound applied by search is the first `after YYYY`
occurrence in the query; every returned record whose year parses exceeds
that first matched year (strictly).  A query containing `after 2015` behind
an earlier, smaller `after` clause can therefore return years at most
2015. -/
theorem C4_amended_first_after_bound (papers : List Record) (sims : ℕ → ℚ)
    (query : String) (top_k : ℕ) (y : Int) (e : ScoredEntry) (n : Int)
    (hy : (parse_query query).year_after = some y)
    (he : e ∈ (search papers sims query top_k).results)
    (hn : pyInt e.paper.year = some n) :
    y < n := by
  have he1 : e ∈ sortDesc (scored_candidates papers sims query) :=
    List.mem_of_mem_take he
  have he2 : e ∈ scored_candidates papers sims query :=
    (List.mem_insertionSort rankGE).mp he1
  exact passes_year_after hy hn (mem_scored_candidates he2).1

/-- C4 witness: the amended bound at a one-record corpus with year 2020 and
the query "after 2015". -/
theorem C4_amended_witness : (2015 : Int) < 2020 :=
  C4_amended_first_after_bound [rec2020] (fun _ => 1) "after 2015" 5 2015
    ⟨0, 3/5, rec2020⟩ 2020 (by decide) (by decide) (by decide)

/-- C1 amended: for positive top_k, search returns an empty result sequence
exactly when every corpus record either fails the parsed filters or has
hybrid score 0 — there is no fallback to the unfiltered corpus, so a
non-empty corpus can yield zero results. -/
theorem C1_amended_empty_iff (papers : List Record) (sims : ℕ → ℚ) (query : String)
    (top_k : ℕ) (hk : 0 < top_k) :
    (search papers sims query top_k).results = []
      ↔ ∀ ip ∈ papers.enum,
          ¬(passes_filters ip.2 (parse_query query) = true
            ∧ 0 < hybrid_score ip.2 query (parse_query query) (sims ip.1)) := by
  have hsort : (search papers sims query top_k).results
      = (sortDesc (scored_candidates papers sims query)).take top_k := rfl
  rw [hsort, List.take_eq_nil_iff]
  constructor
  · rintro (h | h)
    · omega
    · have hperm : List.Perm (sortDesc (scored_candidates papers sims query))
          (scored_candidates papers sims query) := List.perm_insertionSort rankGE _
      have hlen := hperm.length_eq
      rw [h, List.length_nil] at hlen
      have hnil : scored_candidates papers sims query = [] :=
        List.length_eq_zero.mp hlen.symm
      intro ip hip
      exact scoreEntry_eq_none.mp (List.filterMap_eq_nil_iff.mp hnil ip hip)
  · intro h
    right
    have hnil : scored_candidates papers sims query = [] :=
      List.filterMap_eq_nil_iff.mpr fun ip hip => scoreEntry_eq_none.mpr (h ip hip)
    rw [hnil]
    rfl

/-- C1 witness: the amended equivalence at the one-record year-2000 corpus
and the query "after 2015". -/
theorem C1_amended_witness :
    (search [rec2000] (fun _ => 1) "after 2015" 5).results = []
      ↔ ∀ ip ∈ ([rec2000] : List Record).enum,
          ¬(passes_filters ip.2 (parse_query "after 2015") = true
            ∧ 0 < hybrid_score ip.2 "after 2015" (parse_query "after 2015") 1) :=
  C1_amended_empty_iff [rec2000] (fun _ => 1) "after 2015" 5 (by decide)

/-- C7: for positive top_k the result sequence of search is ordered by
strictly descending score with ties in original corpus order (the stable
sort leaves equal scores in index order), contains no zero-scored
candidate, and has length at most top_k. -/
theorem C7_ranking (papers : List Record) (sims : ℕ → ℚ) (query : String)
    (top_k : ℕ) (hk : 0 < top_k) :
    ((search papers sims query top_k).results.Pairwise rankKey)
    ∧ (∀ e ∈ (search papers sims query top_k).results, e.score ≠ 0)
    ∧ (search papers sims query top_k).results.length ≤ top_k := by
  refine ⟨?_, ?_, ?_⟩
  · exact (sortDesc_rankKey (scored_pairwise_idx papers sims query)).sublist
      (List.take_sublist _ _)
  · intro e he
    have he2 : e ∈ scored_candidates papers sims query :=
      (List.mem_insertionSort rankGE).mp (List.mem_of_mem_take he)
    exact ((mem_scored_candidates he2).2.1).ne'
  · show (List.take top_k (sortDesc (scored_candidates papers sims query))).length ≤ top_k
    rw [List.length_take]
    exact min_le_left _ _

/-- C7 witness: ranking properties of the example-corpus search. -/
theorem C7_witness :
    ((search exampleCorpus (fun _ => 0) "papers by alice rao after 2019" 20).results.Pairwise
        rankKey)
    ∧ (∀ e ∈ (search exampleCorpus (fun _ => 0) "papers by alice rao after 2019" 20).results,
        e.score ≠ 0)
    ∧ (search exampleCorpus (fun _ => 0) "papers by alice rao after 2019" 20).results.length
        ≤ 20 :=
  C7_ranking exampleCorpus (fun _ => 0) "papers by alice rao after 2019" 20 (by decide)
